import Mathlib

/-!
# Verification of the `lily-cst` tokenizer

A shallow embedding of `src/lily-cst/src/spanner.rs` (the `Cursor` scanning
primitive, the `take_token` classification state machine, and the `lex`
driving sequence) together with a model of the alternative regex-based
`Lexer` of `src/lily-cst/src/lib.rs`, and proofs of the specification's
claims about them.

Conventions of the embedding:
* A source buffer is a `List Char` (the sequence of Unicode scalars, which
  is what Rust's `str::chars()` iterates).  Offsets are byte offsets, as in
  the source: `consumed_len` is the total UTF-8 byte length minus the byte
  length of the remaining scalars, exactly as `length - chars.as_str().len()`.
* The Unicode category predicates of the `unicode_categories` crate
  (`is_letter` = category L, `is_number` = category N, `is_symbol` =
  category S, `is_punctuation` = category P) and Rust's
  `char::is_whitespace` (the White_Space property) are embedded exactly on
  the ASCII range (plus the full White_Space table); code points above
  ASCII are outside every claim's inputs and are classified as
  no-category here.
* The `take().unwrap()` at the head of `take_token` is modelled by
  returning `none` (the panic) when the cursor is exhausted; `lex` never
  reaches that branch, which is proved below.
* `lex` produces a lazy iterator in the source; here it is driven with
  explicit fuel `source.length + 1`, which is proved sufficient (each
  produced token consumes at least one scalar).
-/

/-- Error taxonomy of `spanner.rs` (`enum TokenError`). -/
inductive TokenError where
  | UnfinishedBlockComment
  | UnfinishedCharacter
  | UnfinishedNumber
  | UnfinishedString
  | UnknownToken
deriving DecidableEq, Repr

/-- Token categories of `spanner.rs` (`enum TokenKind`).  The source's
`Syntax` variant is named `SyntaxTok` here because `Syntax` is a core Lean
type name; every other constructor keeps its source name. -/
inductive TokenKind where
  | Character
  | CommentBlock
  | CommentLine
  | Eof
  | Identifier
  | Integer
  | Number
  | String
  | Symbol
  | SyntaxTok
  | Unknown (e : TokenError)
  | Whitespace
deriving DecidableEq, Repr

/-- A spanned token (`struct TokenSpan`): half-open byte range
`[begin, endPos)` into the source buffer.  The source field `end` is a Lean
keyword and is named `endPos` here. -/
structure TokenSpan where
  begin : Nat
  endPos : Nat
  kind : TokenKind
deriving DecidableEq, Repr

/-- The NUL scalar `'\0'` returned by the peeks at exhaustion. -/
def nulChar : Char := Char.ofNat 0

/-- The single-quote scalar `'\''`. -/
def quoteChar : Char := Char.ofNat 39

/-- Unicode general category L (`unicode_categories::is_letter`), embedded
on the ASCII range: `A`-`Z` and `a`-`z`. -/
def is_letter (c : Char) : Bool :=
  decide ((65 ≤ c.toNat ∧ c.toNat ≤ 90) ∨ (97 ≤ c.toNat ∧ c.toNat ≤ 122))

/-- Unicode general category N (`unicode_categories::is_number`), embedded
on the ASCII range: `0`-`9`. -/
def is_number (c : Char) : Bool :=
  decide (48 ≤ c.toNat ∧ c.toNat ≤ 57)

/-- Unicode general category S (`unicode_categories::is_symbol`), embedded
on the ASCII range: the nine ASCII symbol scalars
`$ + < = > ^ \x60 | ~`. -/
def is_symbol (c : Char) : Bool :=
  decide (c.toNat ∈ [36, 43, 60, 61, 62, 94, 96, 124, 126])

/-- Unicode general category P (`unicode_categories::is_punctuation`),
embedded on the ASCII range: the twenty-three ASCII punctuation scalars
`! " # % & ' ( ) * , - . / : ; ? @ [ \ ] _ \x7b \x7d`. -/
def is_punctuation (c : Char) : Bool :=
  decide (c.toNat ∈ [33, 34, 35, 37, 38, 39, 40, 41, 42, 44, 45, 46, 47,
                     58, 59, 63, 64, 91, 92, 93, 95, 123, 125])

/-- Rust's `char::is_whitespace`: the full Unicode White_Space table. -/
def is_whitespace (c : Char) : Bool :=
  decide (c.toNat ∈ [9, 10, 11, 12, 13, 32, 133, 160, 5760,
                     8192, 8193, 8194, 8195, 8196, 8197, 8198, 8199, 8200,
                     8201, 8202, 8232, 8233, 8239, 8287, 12288])

/-- UTF-8 byte length of a scalar sequence (`str::len` on the remaining
slice). -/
def utf8Len (cs : List Char) : Nat := (cs.map Char.utf8Size).sum

/-- Scanner state (`struct Cursor`): the total byte length of the source
and the remaining scalars (`Chars` iterator). -/
structure Cursor where
  length : Nat
  chars : List Char
deriving DecidableEq, Repr

/-- Constructor `Cursor::new`: `length = source.len()` (bytes), `chars =
source.chars()`. -/
def Cursor.new (source : List Char) : Cursor :=
  ⟨utf8Len source, source⟩

/-- Method `Cursor::is_eof`: the remaining slice is empty. -/
def Cursor.is_eof (c : Cursor) : Bool := c.chars.isEmpty

/-- Method `Cursor::consumed_len`: `self.length - self.chars.as_str().len()`. -/
def Cursor.consumed_len (c : Cursor) : Nat := c.length - utf8Len c.chars

/-- Method `Cursor::peek_1`: next scalar or `'\0'`. -/
def Cursor.peek_1 (c : Cursor) : Char := c.chars.headD nulChar

/-- Method `Cursor::peek_2`: scalar after next or `'\0'`. -/
def Cursor.peek_2 (c : Cursor) : Char := c.chars.tail.headD nulChar

/-- Method `Cursor::take`: consumes and returns the next scalar; exhaustion
is the `none` value. -/
def Cursor.take (c : Cursor) : Option Char × Cursor :=
  match c.chars with
  | [] => (none, c)
  | x :: xs => (some x, ⟨c.length, xs⟩)

/-- The loop of `Cursor::take_while` on the remaining scalars: the source
loop checks `predicate(peek_1())` and `!is_eof()` and then `take`s; at
exhaustion `peek_1` is `'\0'` and either the predicate fails or `is_eof`
stops the loop, so on an empty list the loop always stops, and on
`x :: xs` it takes `x` exactly when the predicate holds of it. -/
def dropWhileP (p : Char → Bool) : List Char → List Char
  | [] => []
  | x :: xs => if p x then dropWhileP p xs else x :: xs

/-- Method `Cursor::take_while`: consumes scalars while the predicate
matches and the cursor is not at the end. -/
def Cursor.take_while (c : Cursor) (p : Char → Bool) : Cursor :=
  ⟨c.length, dropWhileP p c.chars⟩

/-- The block-comment `loop` in `take_token`, entered with `\x7b-` already
consumed.  The source iteration is: `take_while(|c| c != '-')`; if
`peek_1 = '-'` and `peek_2 = '\x7d'` consume both and stop with
`CommentBlock`; otherwise `take()` — at exhaustion (`None`) stop with
`Unknown(UnfinishedBlockComment)`, else the taken scalar is the `'-'`
whose successor was not `'\x7d'`, and the loop repeats.  Both the
`take_while` pass and the single `take` advance one scalar at a time, so
the loop is exactly this scalar-by-scalar scan: skip any scalar that does
not start an adjacent `-\x7d` pair, consume the pair when found, report
the unfinished error at exhaustion. -/
def blockScan (len : Nat) : List Char → TokenKind × Cursor
  | [] => (TokenKind.Unknown TokenError.UnfinishedBlockComment, ⟨len, []⟩)
  | x :: xs =>
    if x = '-' ∧ xs.headD nulChar = '}' then
      (TokenKind.CommentBlock, ⟨len, xs.tail⟩)
    else blockScan len xs

/-- The match of `Cursor::take_token` after the first scalar `initial` has
been consumed; `c` is the cursor just past `initial`.  The branches appear
in the source's arm order; an arm with a guard (the `\x7b-` and `--` arms)
falls through to the later arms when its guard fails, which the nested
`if` chain reproduces. -/
def dispatch (initial : Char) (c : Cursor) : TokenKind × Cursor :=
  -- block comments: `'{' if self.peek_1() == '-'`
  if initial = '{' ∧ Cursor.peek_1 c = '-' then
    blockScan c.length ((Cursor.take c).2).chars
  -- strings
  else if initial = '"' then
    let c1 := Cursor.take_while c (fun x => x != '"')
    let r := Cursor.take c1
    if r.1 = some '"' then (TokenKind.String, r.2)
    else (TokenKind.Unknown TokenError.UnfinishedString, r.2)
  -- characters
  else if initial = quoteChar then
    let c1 := (Cursor.take c).2
    if Cursor.peek_1 c1 = quoteChar then (TokenKind.Character, (Cursor.take c1).2)
    else (TokenKind.Unknown TokenError.UnfinishedCharacter, c1)
  -- reserved syntax
  else if initial = ';' ∨ initial = '(' ∨ initial = ')' ∨ initial = '[' ∨
          initial = ']' ∨ initial = '{' ∨ initial = '}' then
    (TokenKind.SyntaxTok, c)
  -- reserved syntax that can also be symbols if repeated
  else if initial = ':' ∨ initial = '=' ∨ initial = '.' then
    if Cursor.peek_1 c = initial then
      (TokenKind.Symbol,
        Cursor.take_while c (fun x => is_symbol x || is_punctuation x || x == initial))
    else (TokenKind.SyntaxTok, c)
  -- comment lines: `'-' if self.peek_1() == '-'`
  else if initial = '-' ∧ Cursor.peek_1 c = '-' then
    (TokenKind.CommentLine, Cursor.take_while c (fun x => x != '\n'))
  -- identifiers
  else if is_letter initial = true ∨ initial = '_' then
    (TokenKind.Identifier,
      Cursor.take_while c (fun x => is_letter x || is_number x || x == quoteChar || x == '_'))
  -- whitespace
  else if is_whitespace initial = true then
    (TokenKind.Whitespace, Cursor.take_while c is_whitespace)
  -- integers and floats
  else if is_number initial = true then
    let c1 := Cursor.take_while c is_number
    if Cursor.peek_1 c1 = '.' then
      let c2 := (Cursor.take c1).2
      if is_number (Cursor.peek_1 c2) = true then
        (TokenKind.Number, Cursor.take_while c2 is_number)
      else (TokenKind.Unknown TokenError.UnfinishedNumber, c2)
    else (TokenKind.Integer, c1)
  -- operators
  else if is_symbol initial = true ∨ is_punctuation initial = true then
    (TokenKind.Symbol, Cursor.take_while c (fun x => is_symbol x || is_punctuation x))
  -- everything else
  else (TokenKind.Unknown TokenError.UnknownToken, c)

/-- Method `Cursor::take_token`: records `begin`, consumes the first scalar
(`take().unwrap()`: the panic on exhaustion is the `none` result),
dispatches on it, and records `end`. -/
def Cursor.take_token (c : Cursor) : Option (TokenSpan × Cursor) :=
  let begin := Cursor.consumed_len c
  match Cursor.take c with
  | (none, _) => none
  | (some initial, c1) =>
    let kc := dispatch initial c1
    some (⟨begin, Cursor.consumed_len kc.2, kc.1⟩, kc.2)

/-- The pull loop of `lex`, driven by explicit fuel: `None` at EOF,
otherwise one `take_token` and recurse.  A `take_token` panic (`none`,
never reached from `lex`) ends the stream. -/
def lexLoopF : Nat → Cursor → List TokenSpan
  | 0, _ => []
  | fuel + 1, c =>
    if Cursor.is_eof c then []
    else
      match Cursor.take_token c with
      | none => []
      | some (t, c') => t :: lexLoopF fuel c'

/-- The pull loop of `lex` with the panic propagated: `none` is the panic
of `take_token`'s initial `unwrap`. -/
def lexLoopP : Nat → Cursor → Option (List TokenSpan)
  | 0, _ => some []
  | fuel + 1, c =>
    if Cursor.is_eof c then some []
    else
      match Cursor.take_token c with
      | none => none
      | some (t, c') => (lexLoopP fuel c').map (t :: ·)

/-- Function `lex`: one fresh Cursor, then pull until EOF.  The fuel
`source.length + 1` is sufficient: every produced token consumes at least
one scalar (proved below). -/
def lex (source : List Char) : List TokenSpan :=
  lexLoopF (source.length + 1) (Cursor.new source)

/-- Contiguous exact coverage of the byte range `[b, e)` by a span list:
each span starts where the previous one ended (the first at `b`), is
non-empty (hence spans are strictly increasing and pairwise
non-overlapping), and the last ends at `e`. -/
def covers : List TokenSpan → Nat → Nat → Prop
  | [], b, e => b = e
  | t :: ts, b, e => t.begin = b ∧ b < t.endPos ∧ covers ts t.endPos e

/-! ## The alternative maximal-munch `Lexer` of `lib.rs`

A model of `src/lily-cst/src/lib.rs`: each of the seven anchored regex
patterns is embedded as a function from the current window (the scalars
from the current offset) to an optional pair of the match's byte length
and the result of its callback; `next()` skips leading whitespace, runs
every pattern, and keeps the longest match (on ties, the last one, as
Rust's `max_by_key` does). -/

/-- Error taxonomy of `lib.rs` (`enum Error`). -/
inductive LexError where
  | UnrecognizedToken (offset : Nat)
  | UnecessaryLeadingZeroes (offset : Nat)
  | InternalPanic
deriving DecidableEq, Repr

/-- Token type of `lib.rs` (`enum Token`).  String slices are carried as
scalar lists; the `f64` payload of `DigitDouble` is abstracted as the
integral and fractional digit strings it was parsed from. -/
inductive LexToken where
  | DigitDouble (intPart fracPart : List Char)
  | DigitInteger (value : Int)
  | NameLower (s : List Char)
  | NameUpper (s : List Char)
  | NameSymbol (s : List Char)
  | ParenLeft
  | ParenRight
  | BracketLeft
  | BracketRight
  | SquareLeft
  | SquareRight
  | SymbolAt
  | SymbolColon
  | SymbolComma
  | SymbolEquals
  | SymbolPeriod
  | SymbolPipe
  | SymbolTick
  | SymbolUnderscore
  | CommentLine (s : List Char)
  | ArrowFunction
  | ArrowConstraint
deriving DecidableEq, Repr

/-- Regex class `\p{Lu}` on the ASCII range. -/
def is_upper (c : Char) : Bool := decide (65 ≤ c.toNat ∧ c.toNat ≤ 90)

/-- Regex class `\p{Ll}` on the ASCII range. -/
def is_lower (c : Char) : Bool := decide (97 ≤ c.toNat ∧ c.toNat ≤ 122)

/-- Regex class `[0-9]`. -/
def is_ascii_digit (c : Char) : Bool := decide (48 ≤ c.toNat ∧ c.toNat ≤ 57)

/-- Regex class `[\p{L}+_0-9']`: a letter, `+`, `_`, a digit, or `'`. -/
def identCont (c : Char) : Bool :=
  is_letter c || c == '+' || c == '_' || is_ascii_digit c || c == quoteChar

/-- Regex class `[:!#$%&*+./<=>?@\\^|~-]|(?!\p{P})\p{S}`: one of the listed
ASCII scalars, or a category-S scalar (category S is disjoint from
category P, so the lookahead never rejects one). -/
def symClassChar (c : Char) : Bool :=
  decide (c.toNat ∈ [58, 33, 35, 36, 37, 38, 42, 43, 46, 47, 60, 61, 62,
                     63, 64, 92, 94, 124, 126, 45]) || is_symbol c

/-- Decimal value of a digit string (`str::parse` on digits). -/
def natOfDigits (ds : List Char) : Nat :=
  ds.foldl (fun n c => n * 10 + (c.toNat - 48)) 0

/-- Largest `i64` value; `parse::<i64>` fails (and the callback returns
`InternalPanic`) beyond it. -/
def maxI64 : Nat := 9223372036854775807

/-- Trimming of `str::trim`: drop whitespace at both ends. -/
def trimWs (l : List Char) : List Char :=
  ((l.dropWhile is_whitespace).reverse.dropWhile is_whitespace).reverse

/-- Pattern `^\p{Lu}[\p{L}+_0-9']*` with its callback. -/
def patNameUpper (w : List Char) : Option (Nat × Except LexError LexToken) :=
  match w with
  | [] => none
  | c :: cs =>
    if is_upper c then
      let run := cs.takeWhile identCont
      some (utf8Len (c :: run), Except.ok (LexToken.NameUpper (c :: run)))
    else none

/-- Pattern `^[\p{Ll}_][\p{L}+_0-9']*` with its callback. -/
def patNameLower (w : List Char) : Option (Nat × Except LexError LexToken) :=
  match w with
  | [] => none
  | c :: cs =>
    if is_lower c || c == '_' then
      let run := cs.takeWhile identCont
      some (utf8Len (c :: run), Except.ok (LexToken.NameLower (c :: run)))
    else none

/-- Pattern `^([:!#$%&*+./<=>?@\\^|~-]|(?!\p{P})\p{S})+` with its
callback. -/
def patNameSymbol (w : List Char) : Option (Nat × Except LexError LexToken) :=
  let run := w.takeWhile symClassChar
  if run.isEmpty then none
  else some (utf8Len run, Except.ok (LexToken.NameSymbol run))

/-- Pattern `^([0-9]+)(\.[0-9]+)?` with its callback: a leading `00` on the
whole match is `UnecessaryLeadingZeroes(0)` (the capture starts at the
window's origin), a present fractional group parses as a double, otherwise
as an `i64` when it fits. -/
def patNumber (w : List Char) : Option (Nat × Except LexError LexToken) :=
  let ds := w.takeWhile is_ascii_digit
  if ds.isEmpty then none
  else
    let r := w.drop ds.length
    let hasFrac := r.headD nulChar == '.' && is_ascii_digit (r.tail.headD nulChar)
    let fs := if hasFrac then r.tail.takeWhile is_ascii_digit else []
    let matchLen := utf8Len ds + (if hasFrac then 1 + utf8Len fs else 0)
    let res :=
      if ds.headD nulChar == '0' && ds.tail.headD nulChar == '0' then
        Except.error (LexError.UnecessaryLeadingZeroes 0)
      else if hasFrac then Except.ok (LexToken.DigitDouble ds fs)
      else if natOfDigits ds ≤ maxI64 then
        Except.ok (LexToken.DigitInteger (natOfDigits ds))
      else Except.error LexError.InternalPanic
    some (matchLen, res)

/-- Pattern `^--( *\|)?(.+)\n*` with its callback (`.` never matches a
newline; the greedy optional group backtracks to the empty match when the
mandatory `(.+)` would otherwise have nothing left). -/
def patCommentLine (w : List Char) : Option (Nat × Except LexError LexToken) :=
  match w with
  | '-' :: '-' :: w2 =>
    let sp := w2.takeWhile (fun c => c == ' ')
    let afterSp := w2.drop sp.length
    if afterSp.headD nulChar == '|' &&
        !(afterSp.tail.takeWhile (fun c => c != '\n')).isEmpty then
      let body := afterSp.tail.takeWhile (fun c => c != '\n')
      let rest := afterSp.tail.drop body.length
      let nls := rest.takeWhile (fun c => c == '\n')
      some (2 + utf8Len sp + 1 + utf8Len body + utf8Len nls,
            Except.ok (LexToken.CommentLine (trimWs body)))
    else
      let body := w2.takeWhile (fun c => c != '\n')
      if body.isEmpty then none
      else
        let rest := w2.drop body.length
        let nls := rest.takeWhile (fun c => c == '\n')
        some (2 + utf8Len body + utf8Len nls,
              Except.ok (LexToken.CommentLine (trimWs body)))
  | _ => none

/-- Pattern `^(::|->|=>|<-|<=)` with its callback. -/
def patArrows (w : List Char) : Option (Nat × Except LexError LexToken) :=
  match w with
  | ':' :: ':' :: _ => some (2, Except.ok LexToken.SymbolColon)
  | '-' :: '>' :: _ => some (2, Except.ok LexToken.ArrowFunction)
  | '=' :: '>' :: _ => some (2, Except.ok LexToken.ArrowConstraint)
  | '<' :: '-' :: _ => some (2, Except.ok (LexToken.NameSymbol ['<', '-']))
  | '<' :: '=' :: _ => some (2, Except.ok (LexToken.NameSymbol ['<', '=']))
  | _ => none

/-- Pattern `^[\[\](){}@,=.|` followed by backtick and `_]` with its
callback. -/
def patSingles (w : List Char) : Option (Nat × Except LexError LexToken) :=
  match w with
  | [] => none
  | c :: _ =>
    if c == '[' then some (1, Except.ok LexToken.SquareLeft)
    else if c == ']' then some (1, Except.ok LexToken.SquareRight)
    else if c == '(' then some (1, Except.ok LexToken.ParenLeft)
    else if c == ')' then some (1, Except.ok LexToken.ParenRight)
    else if c == '{' then some (1, Except.ok LexToken.BracketLeft)
    else if c == '}' then some (1, Except.ok LexToken.BracketRight)
    else if c == '@' then some (1, Except.ok LexToken.SymbolAt)
    else if c == ',' then some (1, Except.ok LexToken.SymbolComma)
    else if c == '=' then some (1, Except.ok LexToken.SymbolEquals)
    else if c == '.' then some (1, Except.ok LexToken.SymbolPeriod)
    else if c == '|' then some (1, Except.ok LexToken.SymbolPipe)
    else if c == Char.ofNat 96 then some (1, Except.ok LexToken.SymbolTick)
    else if c == '_' then some (1, Except.ok LexToken.SymbolUnderscore)
    else none

/-- The candidate list of `next()`: every pattern applied to the window, in
the order of the `patterns` vector, failures filtered out. -/
def lexerCandidates (w : List Char) : List (Nat × Except LexError LexToken) :=
  [patNameUpper w, patNameLower w, patNameSymbol w, patNumber w,
   patCommentLine w, patArrows w, patSingles w].filterMap id

/-- Rust's `Iterator::max_by_key`: the maximum by the key, the last one on
ties. -/
def maxByKeyLast (l : List (Nat × Except LexError LexToken)) :
    Option (Nat × Except LexError LexToken) :=
  l.foldl
    (fun acc x =>
      match acc with
      | none => some x
      | some a => if x.1 ≥ a.1 then some x else some a)
    none

/-- Method `Lexer::next` on a window `w` beginning at byte `offset`:
`None` at EOF; otherwise skip leading whitespace (regex `^\s+`), run all
patterns, and emit the longest match's callback result (`Ok` advances the
offset, `Err` is yielded as an item), or `UnrecognizedToken` when nothing
matched. -/
def lexerNextW (offset : Nat) (w : List Char) :
    Option (Except LexError (Nat × LexToken × Nat)) :=
  if w.isEmpty then none
  else
    let wsn := w.takeWhile is_whitespace
    let offset1 := offset + utf8Len wsn
    let w1 := w.drop wsn.length
    match maxByKeyLast (lexerCandidates w1) with
    | some (len, Except.ok tok) => some (Except.ok (offset1, tok, offset1 + len))
    | some (_, Except.error e) => some (Except.error e)
    | none => some (Except.error (LexError.UnrecognizedToken offset1))

/-- The first item of `Lexer::new(source)`: `next()` at offset `0` with the
whole source as window. -/
def lexerFirst (source : List Char) : Option (Except LexError (Nat × LexToken × Nat)) :=
  lexerNextW 0 source

/-! ## Toolkit: byte lengths, suffixes, and progress of the scanner -/

theorem utf8Len_cons (x : Char) (xs : List Char) :
    utf8Len (x :: xs) = x.utf8Size + utf8Len xs := by
  simp [utf8Len]

theorem utf8Len_le_of_suffix {l1 l2 : List Char} (h : l1.IsSuffix l2) :
    utf8Len l1 ≤ utf8Len l2 := by
  obtain ⟨t, rfl⟩ := h
  simp [utf8Len]

theorem utf8Len_lt_of_suffix_cons {xs l : List Char} (x : Char) (h : l.IsSuffix xs) :
    utf8Len l < utf8Len (x :: xs) := by
  have h1 := utf8Len_le_of_suffix h
  have h2 := Char.utf8Size_pos x
  rw [utf8Len_cons]
  omega

theorem dropWhileP_suffix (p : Char → Bool) (l : List Char) :
    (dropWhileP p l).IsSuffix l := by
  induction l with
  | nil => exact List.nil_suffix
  | cons x xs ih =>
    simp only [dropWhileP]
    split
    · exact ih.trans (List.suffix_cons x xs)
    · exact List.suffix_refl _

theorem dropWhileP_eq_dropWhile (p : Char → Bool) (l : List Char) :
    dropWhileP p l = l.dropWhile p := by
  induction l with
  | nil => rfl
  | cons x xs ih => simp only [dropWhileP, List.dropWhile_cons, ih]

theorem dropWhileP_prefix_holds (p : Char → Bool) (l : List Char) :
    ∃ pre, l = pre ++ dropWhileP p l ∧ ∀ x ∈ pre, p x = true := by
  induction l with
  | nil => exact ⟨[], rfl, by simp⟩
  | cons x xs ih =>
    cases hp : p x with
    | true =>
      obtain ⟨pre, heq, hall⟩ := ih
      refine ⟨x :: pre, ?_, ?_⟩
      · simp only [dropWhileP, hp, if_pos, List.cons_append]
        exact congrArg (x :: ·) heq
      · intro y hy
        rcases List.mem_cons.mp hy with h | h
        · exact h ▸ hp
        · exact hall y h
    | false => exact ⟨[], by simp [dropWhileP, hp], by simp⟩

theorem dropWhileP_head_false (p : Char → Bool) (l : List Char) {y : Char}
    {ys : List Char} (h : dropWhileP p l = y :: ys) : p y = false := by
  induction l with
  | nil => simp [dropWhileP] at h
  | cons x xs ih =>
    rw [dropWhileP] at h
    cases hp : p x with
    | true => rw [hp] at h; exact ih (by simpa using h)
    | false =>
      rw [hp, if_neg Bool.false_ne_true] at h
      injection h with h1 h2
      exact h1 ▸ hp

theorem take_snd_chars_suffix (c : Cursor) : (Cursor.take c).2.chars.IsSuffix c.chars := by
  rcases c with ⟨len, chars⟩
  cases chars with
  | nil => exact List.suffix_refl _
  | cons x xs => exact List.suffix_cons x xs

theorem take_snd_length (c : Cursor) : (Cursor.take c).2.length = c.length := by
  rcases c with ⟨len, chars⟩
  cases chars <;> rfl

theorem blockScan_snd (len : Nat) (l : List Char) :
    (blockScan len l).2.chars.IsSuffix l ∧ (blockScan len l).2.length = len := by
  induction l with
  | nil => exact ⟨List.suffix_refl _, rfl⟩
  | cons x xs ih =>
    simp only [blockScan]
    split
    · exact ⟨(List.tail_suffix xs).trans (List.suffix_cons x xs), rfl⟩
    · exact ⟨ih.1.trans (List.suffix_cons x xs), ih.2⟩

theorem dispatch_snd (i : Char) (c : Cursor) :
    (dispatch i c).2.chars.IsSuffix c.chars ∧ (dispatch i c).2.length = c.length := by
  unfold dispatch
  by_cases h1 : i = '{' ∧ Cursor.peek_1 c = '-'
  · rw [if_pos h1]
    exact ⟨(blockScan_snd c.length _).1.trans (take_snd_chars_suffix c),
           (blockScan_snd c.length _).2⟩
  rw [if_neg h1]
  by_cases h2 : i = '"'
  · rw [if_pos h2]
    refine ⟨?_, ?_⟩ <;> dsimp only <;> split
    · exact (take_snd_chars_suffix _).trans (dropWhileP_suffix _ _)
    · exact (take_snd_chars_suffix _).trans (dropWhileP_suffix _ _)
    · exact take_snd_length _
    · exact take_snd_length _
  rw [if_neg h2]
  by_cases h3 : i = quoteChar
  · rw [if_pos h3]
    refine ⟨?_, ?_⟩ <;> dsimp only <;> split
    · exact (take_snd_chars_suffix _).trans (take_snd_chars_suffix c)
    · exact take_snd_chars_suffix c
    · exact (take_snd_length _).trans (take_snd_length c)
    · exact take_snd_length c
  rw [if_neg h3]
  by_cases h4 : i = ';' ∨ i = '(' ∨ i = ')' ∨ i = '[' ∨ i = ']' ∨ i = '{' ∨ i = '}'
  · rw [if_pos h4]
    exact ⟨List.suffix_refl _, rfl⟩
  rw [if_neg h4]
  by_cases h5 : i = ':' ∨ i = '=' ∨ i = '.'
  · rw [if_pos h5]
    refine ⟨?_, ?_⟩ <;> dsimp only <;> split
    · exact dropWhileP_suffix _ _
    · exact List.suffix_refl _
    · rfl
    · rfl
  rw [if_neg h5]
  by_cases h6 : i = '-' ∧ Cursor.peek_1 c = '-'
  · rw [if_pos h6]
    exact ⟨dropWhileP_suffix _ _, rfl⟩
  rw [if_neg h6]
  by_cases h7 : is_letter i = true ∨ i = '_'
  · rw [if_pos h7]
    exact ⟨dropWhileP_suffix _ _, rfl⟩
  rw [if_neg h7]
  by_cases h8 : is_whitespace i = true
  · rw [if_pos h8]
    exact ⟨dropWhileP_suffix _ _, rfl⟩
  rw [if_neg h8]
  by_cases h9 : is_number i = true
  · rw [if_pos h9]
    refine ⟨?_, ?_⟩ <;> dsimp only <;> split
    · split
      · exact (dropWhileP_suffix _ _).trans
          ((take_snd_chars_suffix _).trans (dropWhileP_suffix _ _))
      · exact (take_snd_chars_suffix _).trans (dropWhileP_suffix _ _)
    · exact dropWhileP_suffix _ _
    · split
      · exact take_snd_length _
      · exact take_snd_length _
    · rfl
  rw [if_neg h9]
  by_cases h10 : is_symbol i = true ∨ is_punctuation i = true
  · rw [if_pos h10]
    exact ⟨dropWhileP_suffix _ _, rfl⟩
  rw [if_neg h10]
  exact ⟨List.suffix_refl _, rfl⟩

theorem take_token_cons {c : Cursor} {x : Char} {xs : List Char} (h : c.chars = x :: xs) :
    Cursor.take_token c =
      some (⟨Cursor.consumed_len c, Cursor.consumed_len (dispatch x ⟨c.length, xs⟩).2,
             (dispatch x ⟨c.length, xs⟩).1⟩, (dispatch x ⟨c.length, xs⟩).2) := by
  rcases c with ⟨len, chars⟩
  cases h
  rfl

theorem take_token_nil {c : Cursor} (h : c.chars = []) : Cursor.take_token c = none := by
  rcases c with ⟨len, chars⟩
  cases h
  rfl

theorem consumed_len_lt {len : Nat} {x : Char} {xs l2 : List Char}
    (hsuf : l2.IsSuffix xs) (hinv : utf8Len (x :: xs) ≤ len) :
    Cursor.consumed_len ⟨len, x :: xs⟩ < Cursor.consumed_len ⟨len, l2⟩ := by
  have h1 := utf8Len_lt_of_suffix_cons x hsuf
  unfold Cursor.consumed_len
  dsimp only
  omega

theorem lexLoopF_covers : ∀ (fuel : Nat) (c : Cursor), c.chars.length < fuel →
    utf8Len c.chars ≤ c.length →
    covers (lexLoopF fuel c) (Cursor.consumed_len c) c.length := by
  intro fuel
  induction fuel with
  | zero => intro c h _; omega
  | succ n ih =>
    intro c hlen hinv
    match hc : c.chars with
    | [] =>
      have he : Cursor.is_eof c = true := by simp [Cursor.is_eof, hc]
      rw [lexLoopF, if_pos he]
      show Cursor.consumed_len c = c.length
      simp [Cursor.consumed_len, hc, utf8Len]
    | x :: xs =>
      have he : ¬ (Cursor.is_eof c = true) := by simp [Cursor.is_eof, hc]
      rw [lexLoopF, if_neg he, take_token_cons hc]
      have hD := dispatch_snd x ⟨c.length, xs⟩
      rw [hc] at hinv
      refine ⟨rfl, ?_, ?_⟩
      · have hend : Cursor.consumed_len c = Cursor.consumed_len ⟨c.length, x :: xs⟩ := by
          rcases c with ⟨len, chars⟩
          cases hc
          rfl
        rw [hend]
        have h2 : Cursor.consumed_len (dispatch x ⟨c.length, xs⟩).2 =
            Cursor.consumed_len ⟨c.length, (dispatch x ⟨c.length, xs⟩).2.chars⟩ := by
          unfold Cursor.consumed_len
          rw [hD.2]
        rw [h2]
        exact consumed_len_lt hD.1 hinv
      · have h3 : (dispatch x ⟨c.length, xs⟩).2.chars.length < n := by
          have h4 : (dispatch x ⟨c.length, xs⟩).2.chars.length ≤ xs.length :=
            hD.1.length_le
          have h5 : c.chars.length < n + 1 := hlen
          rw [hc] at h5
          simp only [List.length_cons] at h5
          omega
        have h6 : utf8Len (dispatch x ⟨c.length, xs⟩).2.chars ≤
            (dispatch x ⟨c.length, xs⟩).2.length := by
          have h7 : utf8Len (dispatch x ⟨c.length, xs⟩).2.chars ≤ utf8Len xs :=
            utf8Len_le_of_suffix hD.1
          have h8 : utf8Len (x :: xs) = x.utf8Size + utf8Len xs := utf8Len_cons x xs
          rw [hD.2]
          show utf8Len (dispatch x ⟨c.length, xs⟩).2.chars ≤ c.length
          omega
        have h9 := ih (dispatch x ⟨c.length, xs⟩).2 h3 h6
        rw [hD.2] at h9
        exact h9

theorem lexLoopF_length_le : ∀ (fuel : Nat) (c : Cursor),
    (lexLoopF fuel c).length ≤ c.chars.length := by
  intro fuel
  induction fuel with
  | zero => intro c; simp [lexLoopF]
  | succ n ih =>
    intro c
    match hc : c.chars with
    | [] =>
      have he : Cursor.is_eof c = true := by simp [Cursor.is_eof, hc]
      rw [lexLoopF, if_pos he]
      simp
    | x :: xs =>
      have he : ¬ (Cursor.is_eof c = true) := by simp [Cursor.is_eof, hc]
      rw [lexLoopF, if_neg he, take_token_cons hc]
      have hD := dispatch_snd x ⟨c.length, xs⟩
      have h1 := ih (dispatch x ⟨c.length, xs⟩).2
      have h2 : (dispatch x ⟨c.length, xs⟩).2.chars.length ≤ xs.length := hD.1.length_le
      simp only [List.length_cons, hc]
      omega

theorem lexLoopP_eq_some : ∀ (fuel : Nat) (c : Cursor),
    lexLoopP fuel c = some (lexLoopF fuel c) := by
  intro fuel
  induction fuel with
  | zero => intro c; rfl
  | succ n ih =>
    intro c
    match hc : c.chars with
    | [] =>
      have he : Cursor.is_eof c = true := by simp [Cursor.is_eof, hc]
      rw [lexLoopP, lexLoopF, if_pos he, if_pos he]
    | x :: xs =>
      have he : ¬ (Cursor.is_eof c = true) := by simp [Cursor.is_eof, hc]
      rw [lexLoopP, lexLoopF, if_neg he, if_neg he, take_token_cons hc]
      dsimp only
      rw [ih]
      rfl

theorem covers_mem_lt : ∀ (ts : List TokenSpan) (b e : Nat), covers ts b e →
    ∀ t ∈ ts, t.begin < t.endPos := by
  intro ts
  induction ts with
  | nil => intro b e _ t ht; simp at ht
  | cons s ss ih =>
    intro b e h t ht
    obtain ⟨hb, hlt, hrest⟩ := h
    rcases List.mem_cons.mp ht with rfl | hmem
    · rw [hb]; exact hlt
    · exact ih s.endPos e hrest t hmem

theorem take_token_consumed_lt {c : Cursor} {t : TokenSpan} {c' : Cursor}
    (hinv : utf8Len c.chars ≤ c.length) (htk : Cursor.take_token c = some (t, c')) :
    Cursor.consumed_len c < Cursor.consumed_len c' := by
  match hc : c.chars with
  | [] => rw [take_token_nil hc] at htk; cases htk
  | x :: xs =>
    rw [take_token_cons hc] at htk
    injection htk with h1
    injection h1 with h1a h1b
    have hD := dispatch_snd x ⟨c.length, xs⟩
    rw [hc] at hinv
    have hend : Cursor.consumed_len c = Cursor.consumed_len ⟨c.length, x :: xs⟩ := by
      rcases c with ⟨len, chars⟩
      cases hc
      rfl
    have h2 : Cursor.consumed_len c' = Cursor.consumed_len ⟨c.length, c'.chars⟩ := by
      unfold Cursor.consumed_len
      rw [← h1b, hD.2]
    rw [hend, h2, ← h1b]
    exact consumed_len_lt hD.1 hinv

/-- C1: for every input buffer of byte length `L`, the spans produced by
`lex` cover the buffer exactly: they are contiguous (`covers` forces each
span's `begin` to equal the point where the previous span ended), strictly
increasing and non-empty (hence pairwise non-overlapping), the first span
begins at `0`, and the last ends at `L`; concatenating the `[begin, end)`
ranges therefore reconstructs `[0, L)` with no byte skipped or
double-counted. -/
theorem claim1_lex_covers_exactly (source : List Char) :
    covers (lex source) 0 (utf8Len source) := by
  have h := lexLoopF_covers (source.length + 1) (Cursor.new source)
    (Nat.lt_succ_self _) le_rfl
  have h0 : Cursor.consumed_len (Cursor.new source) = 0 := Nat.sub_self _
  rw [h0] at h
  exact h

/-- C6: `take_token`'s initial `take().unwrap()` cannot panic when the
cursor is not at EOF (the result is always `some`); the driving sequence
only calls `take_token` on a non-EOF cursor, so the panic-propagating loop
`lexLoopP` always equals `some` of the produced stream — pulling from
`lex` never panics — and `lex` of the empty buffer is the empty
sequence. -/
theorem claim6_no_panic :
    (∀ c : Cursor, Cursor.is_eof c = false → (Cursor.take_token c).isSome = true) ∧
    (∀ (fuel : Nat) (c : Cursor), lexLoopP fuel c = some (lexLoopF fuel c)) ∧
    lex [] = [] := by
  refine ⟨?_, lexLoopP_eq_some, rfl⟩
  intro c hc
  match h : c.chars with
  | [] =>
    exfalso
    rw [Cursor.is_eof, h] at hc
    cases hc
  | x :: xs =>
    rw [take_token_cons h]
    rfl

theorem claim6_witness : (Cursor.take_token ⟨1, ['a']⟩).isSome = true :=
  claim6_no_panic.1 ⟨1, ['a']⟩ rfl

/-- C7: `take_while` consumes scalars exactly while the predicate holds of
the next scalar: the consumed prefix satisfies the predicate throughout,
the first remaining scalar (if any) fails it, and the recorded total
length is untouched; and every Cursor operation is total — exhaustion is
the `none` value of `take`, which occurs exactly at EOF. -/
theorem claim7_take_while_exact :
    (∀ (c : Cursor) (p : Char → Bool),
      (∃ pre, c.chars = pre ++ (Cursor.take_while c p).chars ∧ ∀ x ∈ pre, p x = true) ∧
      (∀ y ys, (Cursor.take_while c p).chars = y :: ys → p y = false) ∧
      (Cursor.take_while c p).length = c.length) ∧
    (∀ c : Cursor, (Cursor.take c).1 = none ↔ Cursor.is_eof c = true) := by
  constructor
  · intro c p
    refine ⟨dropWhileP_prefix_holds p c.chars, ?_, rfl⟩
    intro y ys h
    exact dropWhileP_head_false p c.chars h
  · intro c
    rcases c with ⟨len, chars⟩
    cases chars
    · simp [Cursor.take, Cursor.is_eof]
    · simp [Cursor.take, Cursor.is_eof]

theorem claim7_witness : is_number 'a' = false :=
  (claim7_take_while_exact.1 ⟨2, ['1', 'a']⟩ is_number).2.1 'a' [] rfl

/-- C8: every span produced by `lex` is non-empty (`begin < end`, so
slicing the buffer with it is never empty), the stream is finite with at
most one token per scalar of the source, and each successful `take_token`
strictly increases `consumed_len`, which is always bounded by the buffer
length. -/
theorem claim8_nonempty_spans_finite :
    (∀ (source : List Char), ∀ t ∈ lex source, t.begin < t.endPos) ∧
    (∀ (source : List Char), (lex source).length ≤ source.length) ∧
    (∀ (c : Cursor) (t : TokenSpan) (c' : Cursor), utf8Len c.chars ≤ c.length →
      Cursor.take_token c = some (t, c') →
      Cursor.consumed_len c < Cursor.consumed_len c' ∧
        Cursor.consumed_len c' ≤ c'.length) := by
  refine ⟨?_, ?_, ?_⟩
  · intro source t ht
    have h := lexLoopF_covers (source.length + 1) (Cursor.new source)
      (Nat.lt_succ_self _) le_rfl
    exact covers_mem_lt _ _ _ h t ht
  · intro source
    exact lexLoopF_length_le (source.length + 1) (Cursor.new source)
  · intro c t c' hinv htk
    exact ⟨take_token_consumed_lt hinv htk, Nat.sub_le _ _⟩

theorem claim8_witness :
    (⟨0, 1, TokenKind.Identifier⟩ : TokenSpan).begin <
      (⟨0, 1, TokenKind.Identifier⟩ : TokenSpan).endPos :=
  claim8_nonempty_spans_finite.1 ['a'] ⟨0, 1, TokenKind.Identifier⟩ (by decide)

/-- Description from the claim: the block-comment body scan repeatedly
consumes runs of non-`-` scalars until the next two scalars are the
adjacent pair `-\x7d`; `scanClose` returns the scalars after the first
such adjacent pair, or `none` when the input is exhausted before one is
found. -/
def scanClose : List Char → Option (List Char)
  | [] => none
  | x :: xs =>
    if x = '-' ∧ xs.headD nulChar = '}' then some xs.tail
    else scanClose xs

theorem blockScan_eq_scanClose (len : Nat) (l : List Char) :
    blockScan len l =
      match scanClose l with
      | some post => (TokenKind.CommentBlock, ⟨len, post⟩)
      | none => (TokenKind.Unknown TokenError.UnfinishedBlockComment, ⟨len, []⟩) := by
  induction l with
  | nil => rfl
  | cons x xs ih =>
    rw [blockScan, scanClose]
    split
    · rfl
    · exact ih

/-- C4: on input beginning `\x7b-`, `take_token` consumes the opener and
scans for the first adjacent `-\x7d`: if found it consumes through it and
returns `CommentBlock`, otherwise it consumes to the end of input and
returns `Unknown(UnfinishedBlockComment)`; concretely
`lex "\x7b- abc -\x7d"` is one `CommentBlock` span covering the whole
input and `lex "\x7b- abc"` is one `Unknown(UnfinishedBlockComment)` span
to the end of input. -/
theorem claim4_block_comments :
    (∀ (len : Nat) (rest : List Char),
      Cursor.take_token ⟨len, '{' :: '-' :: rest⟩ =
        some (match scanClose rest with
          | some post =>
            (⟨len - utf8Len ('{' :: '-' :: rest), len - utf8Len post,
              TokenKind.CommentBlock⟩, ⟨len, post⟩)
          | none =>
            (⟨len - utf8Len ('{' :: '-' :: rest), len,
              TokenKind.Unknown TokenError.UnfinishedBlockComment⟩, ⟨len, []⟩))) ∧
    lex "\x7b- abc -\x7d".data = [⟨0, 9, TokenKind.CommentBlock⟩] ∧
    lex "\x7b- abc".data = [⟨0, 6, TokenKind.Unknown TokenError.UnfinishedBlockComment⟩] := by
  refine ⟨?_, by decide, by decide⟩
  intro len rest
  rw [take_token_cons rfl]
  have hd : dispatch '{' ⟨len, '-' :: rest⟩ = blockScan len rest := by
    unfold dispatch
    rw [if_pos ⟨rfl, rfl⟩]
    rfl
  rw [hd, blockScan_eq_scanClose]
  cases hsc : scanClose rest <;> rfl

theorem dropWhileP_nil_of_all (p : Char → Bool) (l : List Char)
    (h : ∀ x ∈ l, p x = true) : dropWhileP p l = [] := by
  induction l with
  | nil => rfl
  | cons x xs ih =>
    rw [dropWhileP, if_pos (h x (List.mem_cons_self x xs))]
    exact ih (fun y hy => h y (List.mem_cons_of_mem x hy))

theorem dispatch_quote_eq (len : Nat) (rest : List Char) :
    dispatch quoteChar ⟨len, rest⟩ =
      (match rest with
        | [] => (TokenKind.Unknown TokenError.UnfinishedCharacter, ⟨len, []⟩)
        | _ :: rest2 =>
          if rest2.headD nulChar = quoteChar then (TokenKind.Character, ⟨len, rest2.tail⟩)
          else (TokenKind.Unknown TokenError.UnfinishedCharacter, ⟨len, rest2⟩)) := by
  unfold dispatch
  rw [if_neg (by rintro ⟨h, -⟩; exact absurd h (by decide))]
  rw [if_neg (by decide)]
  rw [if_pos rfl]
  cases rest with
  | nil => rfl
  | cons c2 rest2 =>
    cases rest2 with
    | nil => rfl
    | cons d2 ds2 => rfl

theorem dispatch_number_eq (len : Nat) (ch : Char) (cs : List Char)
    (hn : is_number ch = true) :
    dispatch ch ⟨len, cs⟩ =
      (if (cs.dropWhile is_number).headD nulChar = '.' then
        (if is_number ((cs.dropWhile is_number).tail.headD nulChar) = true then
          (TokenKind.Number, ⟨len, (cs.dropWhile is_number).tail.dropWhile is_number⟩)
        else (TokenKind.Unknown TokenError.UnfinishedNumber,
              ⟨len, (cs.dropWhile is_number).tail⟩))
      else (TokenKind.Integer, ⟨len, cs.dropWhile is_number⟩)) := by
  have hb : 48 ≤ ch.toNat ∧ ch.toNat ≤ 57 := by simpa [is_number] using hn
  unfold dispatch
  rw [if_neg (by rintro ⟨rfl, -⟩; exact absurd hb (by decide))]
  rw [if_neg (by rintro rfl; exact absurd hb (by decide))]
  rw [if_neg (by rintro rfl; exact absurd hb (by decide))]
  rw [if_neg (by rintro (rfl | rfl | rfl | rfl | rfl | rfl | rfl) <;>
        exact absurd hb (by decide))]
  rw [if_neg (by rintro (rfl | rfl | rfl) <;> exact absurd hb (by decide))]
  rw [if_neg (by rintro ⟨rfl, -⟩; exact absurd hb (by decide))]
  rw [if_neg (by rintro (h | rfl) <;> first
        | (simp only [is_letter, decide_eq_true_eq] at h; omega)
        | exact absurd hb (by decide))]
  rw [if_neg (by intro h
                 simp only [is_whitespace, decide_eq_true_eq, List.mem_cons,
                   List.not_mem_nil, or_false] at h
                 omega)]
  rw [if_pos hn]
  dsimp only
  simp only [Cursor.take_while, Cursor.peek_1, dropWhileP_eq_dropWhile]
  by_cases h1 : (cs.dropWhile is_number).headD nulChar = '.'
  · rw [if_pos h1, if_pos h1]
    have hne : cs.dropWhile is_number ≠ [] := by
      intro h0
      rw [h0] at h1
      exact absurd h1 (by decide)
    obtain ⟨d, ds, hds⟩ := List.exists_cons_of_ne_nil hne
    rw [hds]
    rfl
  · rw [if_neg h1, if_neg h1]

/-- C2: errors never abort the lex, for every input.  Universally: an
unrecognized leading scalar yields one `Unknown(UnknownToken)` span
covering exactly that scalar; a string with no closing quote anywhere
yields one `Unknown(UnfinishedString)` span covering the rest of the
buffer; a character literal whose content scalar is not followed by a
closing quote (and the lone-quote input) yields one
`Unknown(UnfinishedCharacter)` span covering the scanned region; a block
comment with no adjacent close pair before exhaustion yields one
`Unknown(UnfinishedBlockComment)` span to the end of input; a digit run
followed by `.` and no digit yields one `Unknown(UnfinishedNumber)` span
with the `.` consumed.  In every case the cursor is left exactly past the
invalid region, and the stream continues with the next token after any
produced span; the stream is empty only when the cursor is at EOF, so
iteration ends only by exhaustion of the buffer.  Concrete instances
show each error and, mid-buffer, the continued lexing after it. -/
theorem claim2_errors_are_local_nonfatal :
    (∀ (len : Nat) (ch : Char) (rest : List Char),
      is_letter ch = false → ch ≠ '_' → is_whitespace ch = false →
      is_number ch = false → is_symbol ch = false → is_punctuation ch = false →
      Cursor.take_token ⟨len, ch :: rest⟩ =
        some (⟨len - utf8Len (ch :: rest), len - utf8Len rest,
               TokenKind.Unknown TokenError.UnknownToken⟩, ⟨len, rest⟩)) ∧
    (∀ (len : Nat) (rest : List Char), (∀ x ∈ rest, x ≠ '"') →
      Cursor.take_token ⟨len, '"' :: rest⟩ =
        some (⟨len - utf8Len ('"' :: rest), len,
               TokenKind.Unknown TokenError.UnfinishedString⟩, ⟨len, []⟩)) ∧
    (∀ (len : Nat) (c2 : Char) (rest2 : List Char), rest2.headD nulChar ≠ quoteChar →
      Cursor.take_token ⟨len, quoteChar :: c2 :: rest2⟩ =
        some (⟨len - utf8Len (quoteChar :: c2 :: rest2), len - utf8Len rest2,
               TokenKind.Unknown TokenError.UnfinishedCharacter⟩, ⟨len, rest2⟩)) ∧
    (∀ len : Nat,
      Cursor.take_token ⟨len, [quoteChar]⟩ =
        some (⟨len - utf8Len [quoteChar], len,
               TokenKind.Unknown TokenError.UnfinishedCharacter⟩, ⟨len, []⟩)) ∧
    (∀ (len : Nat) (rest : List Char), scanClose rest = none →
      Cursor.take_token ⟨len, '{' :: '-' :: rest⟩ =
        some (⟨len - utf8Len ('{' :: '-' :: rest), len,
               TokenKind.Unknown TokenError.UnfinishedBlockComment⟩, ⟨len, []⟩)) ∧
    (∀ (len : Nat) (ch : Char) (cs r2 : List Char), is_number ch = true →
      cs.dropWhile is_number = '.' :: r2 → is_number (r2.headD nulChar) = false →
      Cursor.take_token ⟨len, ch :: cs⟩ =
        some (⟨len - utf8Len (ch :: cs), len - utf8Len r2,
               TokenKind.Unknown TokenError.UnfinishedNumber⟩, ⟨len, r2⟩)) ∧
    (∀ (fuel : Nat) (c : Cursor) (t : TokenSpan) (c' : Cursor),
      Cursor.is_eof c = false → Cursor.take_token c = some (t, c') →
      lexLoopF (fuel + 1) c = t :: lexLoopF fuel c') ∧
    (∀ (fuel : Nat) (c : Cursor), c.chars.length < fuel → lexLoopF fuel c = [] →
      Cursor.is_eof c = true) ∧
    lex "\"ab".data = [⟨0, 3, TokenKind.Unknown TokenError.UnfinishedString⟩] ∧
    lex "\x7b- a".data = [⟨0, 4, TokenKind.Unknown TokenError.UnfinishedBlockComment⟩] ∧
    lex (quoteChar :: ['a']) = [⟨0, 2, TokenKind.Unknown TokenError.UnfinishedCharacter⟩] ∧
    lex "3.x".data = [⟨0, 2, TokenKind.Unknown TokenError.UnfinishedNumber⟩,
                      ⟨2, 3, TokenKind.Identifier⟩] ∧
    lex (Char.ofNat 1 :: ['a']) = [⟨0, 1, TokenKind.Unknown TokenError.UnknownToken⟩,
                                   ⟨1, 2, TokenKind.Identifier⟩] := by
  refine ⟨?_, ?_, ?_, ?_, ?_, ?_, ?_, ?_,
          by decide, by decide, by decide, by decide, by decide⟩
  · intro len ch rest hl _hu hw hn hs hp
    rw [take_token_cons rfl]
    have hd : dispatch ch ⟨len, rest⟩ =
        (TokenKind.Unknown TokenError.UnknownToken, ⟨len, rest⟩) := by
      unfold dispatch
      rw [if_neg (by rintro ⟨rfl, -⟩; exact absurd hp (by decide))]
      rw [if_neg (by rintro rfl; exact absurd hp (by decide))]
      rw [if_neg (by rintro rfl; exact absurd hp (by decide))]
      rw [if_neg (by rintro (rfl | rfl | rfl | rfl | rfl | rfl | rfl) <;>
            exact absurd hp (by decide))]
      rw [if_neg (by rintro (rfl | rfl | rfl) <;> first
            | exact absurd hp (by decide)
            | exact absurd hs (by decide))]
      rw [if_neg (by rintro ⟨rfl, -⟩; exact absurd hp (by decide))]
      rw [if_neg (by rintro (h | rfl) <;> first
            | (rw [hl] at h; exact absurd h Bool.false_ne_true)
            | exact absurd hp (by decide))]
      rw [if_neg (by rw [hw]; exact Bool.false_ne_true)]
      rw [if_neg (by rw [hn]; exact Bool.false_ne_true)]
      rw [if_neg (by rintro (h | h) <;> first
            | (rw [hs] at h; exact absurd h Bool.false_ne_true)
            | (rw [hp] at h; exact absurd h Bool.false_ne_true))]
    rw [hd]
    rfl
  · intro len rest h
    rw [take_token_cons rfl]
    have hd : dispatch '"' ⟨len, rest⟩ =
        (TokenKind.Unknown TokenError.UnfinishedString, ⟨len, []⟩) := by
      unfold dispatch
      rw [if_neg (by rintro ⟨h1, -⟩; exact absurd h1 (by decide))]
      rw [if_pos rfl]
      dsimp only
      have hall : dropWhileP (fun x => x != '"') rest = [] :=
        dropWhileP_nil_of_all _ rest (fun x hx => by simpa using h x hx)
      simp only [Cursor.take_while]
      rw [hall]
      rfl
    rw [hd]
    rfl
  · intro len c2 rest2 h
    rw [take_token_cons rfl, dispatch_quote_eq]
    dsimp only
    rw [if_neg h]
    rfl
  · intro len
    rw [take_token_cons rfl, dispatch_quote_eq]
    rfl
  · intro len rest h
    rw [take_token_cons rfl]
    have hd : dispatch '{' ⟨len, '-' :: rest⟩ = blockScan len rest := by
      unfold dispatch
      rw [if_pos ⟨rfl, rfl⟩]
      rfl
    rw [hd, blockScan_eq_scanClose, h]
    rfl
  · intro len ch cs r2 hn hds hr2
    rw [take_token_cons rfl, dispatch_number_eq len ch cs hn, hds]
    simp only [List.headD_cons, List.tail_cons]
    simp only [if_true]
    rw [if_neg (by rw [hr2]; exact Bool.false_ne_true)]
    rfl
  · intro fuel c t c' he htk
    rw [lexLoopF, if_neg (by rw [he]; exact Bool.false_ne_true), htk]
  · intro fuel c hf hnil
    cases hc : c.chars with
    | nil => simp [Cursor.is_eof, hc]
    | cons x xs =>
      exfalso
      cases fuel with
      | zero => rw [hc] at hf; exact absurd hf (by omega)
      | succ n =>
        have he : ¬ (Cursor.is_eof c = true) := by simp [Cursor.is_eof, hc]
        rw [lexLoopF, if_neg he, take_token_cons hc] at hnil
        dsimp only at hnil
        exact List.cons_ne_nil _ _ hnil

theorem claim2_witness :
    Cursor.take_token ⟨2, [Char.ofNat 1, 'a']⟩ =
      some (⟨2 - utf8Len [Char.ofNat 1, 'a'], 2 - utf8Len ['a'],
             TokenKind.Unknown TokenError.UnknownToken⟩, ⟨2, ['a']⟩) ∧
    Cursor.take_token ⟨3, ['"', 'a', 'b']⟩ =
      some (⟨3 - utf8Len ['"', 'a', 'b'], 3,
             TokenKind.Unknown TokenError.UnfinishedString⟩, ⟨3, []⟩) ∧
    Cursor.take_token ⟨3, [quoteChar, 'a', 'x']⟩ =
      some (⟨3 - utf8Len [quoteChar, 'a', 'x'], 3 - utf8Len ['x'],
             TokenKind.Unknown TokenError.UnfinishedCharacter⟩, ⟨3, ['x']⟩) ∧
    Cursor.take_token ⟨4, ['{', '-', ' ', 'a']⟩ =
      some (⟨4 - utf8Len ['{', '-', ' ', 'a'], 4,
             TokenKind.Unknown TokenError.UnfinishedBlockComment⟩, ⟨4, []⟩) ∧
    Cursor.take_token ⟨3, ['3', '.', 'x']⟩ =
      some (⟨3 - utf8Len ['3', '.', 'x'], 3 - utf8Len ['x'],
             TokenKind.Unknown TokenError.UnfinishedNumber⟩, ⟨3, ['x']⟩) ∧
    lexLoopF 2 ⟨2, ['1', 'a']⟩ = ⟨0, 1, TokenKind.Integer⟩ :: lexLoopF 1 ⟨2, ['a']⟩ ∧
    Cursor.is_eof ⟨0, []⟩ = true :=
  ⟨claim2_errors_are_local_nonfatal.1 2 (Char.ofNat 1) ['a'] (by decide) (by decide)
     (by decide) (by decide) (by decide) (by decide),
   claim2_errors_are_local_nonfatal.2.1 3 ['a', 'b'] (by decide),
   claim2_errors_are_local_nonfatal.2.2.1 3 'a' ['x'] (by decide),
   claim2_errors_are_local_nonfatal.2.2.2.2.1 4 [' ', 'a'] (by decide),
   claim2_errors_are_local_nonfatal.2.2.2.2.2.1 3 '3' ['.', 'x'] ['x']
     (by decide) (by decide) (by decide),
   claim2_errors_are_local_nonfatal.2.2.2.2.2.2.1 1 ⟨2, ['1', 'a']⟩
     ⟨0, 1, TokenKind.Integer⟩ ⟨2, ['a']⟩ (by decide) (by decide),
   claim2_errors_are_local_nonfatal.2.2.2.2.2.2.2.1 1 ⟨0, []⟩ (by decide) (by decide)⟩

/-- C3: on a token whose first scalar is a digit, `take_token` consumes the
maximal digit run (`List.dropWhile` of the digit predicate leaves exactly
the scalars after that run); when a `.` follows, the `.` is consumed, and
a following digit yields `Number` after the next maximal digit run while
no following digit yields `Unknown(UnfinishedNumber)` with the `.`
consumed; otherwise the kind is `Integer`.  Concretely `lex "3."` is the
single span `[0,2)` with `Unknown(UnfinishedNumber)`, and `lex "007"` is a
single `Integer` span `[0,3)` — no leading-zero rejection. -/
theorem claim3_number_rule :
    (∀ (len : Nat) (ch : Char) (cs : List Char), is_number ch = true →
      Cursor.take_token ⟨len, ch :: cs⟩ =
        some (if (cs.dropWhile is_number).headD nulChar = '.' then
            (if is_number ((cs.dropWhile is_number).tail.headD nulChar) = true then
              (⟨len - utf8Len (ch :: cs),
                len - utf8Len ((cs.dropWhile is_number).tail.dropWhile is_number),
                TokenKind.Number⟩, ⟨len, (cs.dropWhile is_number).tail.dropWhile is_number⟩)
            else
              (⟨len - utf8Len (ch :: cs), len - utf8Len (cs.dropWhile is_number).tail,
                TokenKind.Unknown TokenError.UnfinishedNumber⟩,
               ⟨len, (cs.dropWhile is_number).tail⟩))
          else
            (⟨len - utf8Len (ch :: cs), len - utf8Len (cs.dropWhile is_number),
              TokenKind.Integer⟩, ⟨len, cs.dropWhile is_number⟩))) ∧
    lex "3.".data = [⟨0, 2, TokenKind.Unknown TokenError.UnfinishedNumber⟩] ∧
    lex "007".data = [⟨0, 3, TokenKind.Integer⟩] := by
  refine ⟨?_, by decide, by decide⟩
  intro len ch cs hn
  have hb : 48 ≤ ch.toNat ∧ ch.toNat ≤ 57 := by simpa [is_number] using hn
  rw [take_token_cons rfl]
  have hd : dispatch ch ⟨len, cs⟩ =
      (if (cs.dropWhile is_number).headD nulChar = '.' then
        (if is_number ((cs.dropWhile is_number).tail.headD nulChar) = true then
          (TokenKind.Number, ⟨len, (cs.dropWhile is_number).tail.dropWhile is_number⟩)
        else (TokenKind.Unknown TokenError.UnfinishedNumber,
              ⟨len, (cs.dropWhile is_number).tail⟩))
      else (TokenKind.Integer, ⟨len, cs.dropWhile is_number⟩)) := by
    unfold dispatch
    rw [if_neg (by rintro ⟨rfl, -⟩; exact absurd hb (by decide))]
    rw [if_neg (by rintro rfl; exact absurd hb (by decide))]
    rw [if_neg (by rintro rfl; exact absurd hb (by decide))]
    rw [if_neg (by rintro (rfl | rfl | rfl | rfl | rfl | rfl | rfl) <;>
          exact absurd hb (by decide))]
    rw [if_neg (by rintro (rfl | rfl | rfl) <;> exact absurd hb (by decide))]
    rw [if_neg (by rintro ⟨rfl, -⟩; exact absurd hb (by decide))]
    rw [if_neg (by rintro (h | rfl) <;> first
          | (simp only [is_letter, decide_eq_true_eq] at h; omega)
          | exact absurd hb (by decide))]
    rw [if_neg (by intro h
                   simp only [is_whitespace, decide_eq_true_eq, List.mem_cons,
                     List.not_mem_nil, or_false] at h
                   omega)]
    rw [if_pos hn]
    dsimp only
    simp only [Cursor.take_while, Cursor.peek_1, dropWhileP_eq_dropWhile]
    by_cases h1 : (cs.dropWhile is_number).headD nulChar = '.'
    · rw [if_pos h1, if_pos h1]
      have hne : cs.dropWhile is_number ≠ [] := by
        intro h0
        rw [h0] at h1
        exact absurd h1 (by decide)
      obtain ⟨d, ds, hds⟩ := List.exists_cons_of_ne_nil hne
      rw [hds]
      rfl
    · rw [if_neg h1, if_neg h1]
  rw [hd]
  by_cases h1 : (cs.dropWhile is_number).headD nulChar = '.'
  · rw [if_pos h1, if_pos h1]
    by_cases h2 : is_number ((cs.dropWhile is_number).tail.headD nulChar) = true
    · rw [if_pos h2, if_pos h2]
      rfl
    · rw [if_neg h2, if_neg h2]
      rfl
  · rw [if_neg h1, if_neg h1]
    rfl

theorem claim3_witness :
    Cursor.take_token ⟨1, ['7']⟩ = some (⟨0, 1, TokenKind.Integer⟩, ⟨1, []⟩) := by
  have h := claim3_number_rule.1 1 '7' [] (by decide)
  rw [h]
  decide

/-- C5: on a token whose first scalar `c` is one of `:`, `=`, `.`: when the
next scalar equals `c`, `take_token` consumes the maximal run of
symbol/punctuation scalars (`c` included) and returns `Symbol`; when it
differs, only `c` is consumed and the kind is `SyntaxTok` (the source's
`Syntax`).  Concretely `lex "::"` is `Symbol[0,2)` and `lex ":"` is
`Syntax[0,1)`. -/
theorem claim5_repeated_reserved :
    (∀ (len : Nat) (ch : Char) (cs : List Char), ch = ':' ∨ ch = '=' ∨ ch = '.' →
      Cursor.take_token ⟨len, ch :: cs⟩ =
        some (if cs.headD nulChar = ch then
            (⟨len - utf8Len (ch :: cs),
              len - utf8Len (cs.dropWhile (fun x => is_symbol x || is_punctuation x || x == ch)),
              TokenKind.Symbol⟩,
             ⟨len, cs.dropWhile (fun x => is_symbol x || is_punctuation x || x == ch)⟩)
          else
            (⟨len - utf8Len (ch :: cs), len - utf8Len cs, TokenKind.SyntaxTok⟩,
             ⟨len, cs⟩))) ∧
    lex "::".data = [⟨0, 2, TokenKind.Symbol⟩] ∧
    lex ":".data = [⟨0, 1, TokenKind.SyntaxTok⟩] := by
  refine ⟨?_, by decide, by decide⟩
  intro len ch cs hch
  rw [take_token_cons rfl]
  have hd : dispatch ch ⟨len, cs⟩ =
      (if cs.headD nulChar = ch then
        (TokenKind.Symbol,
         ⟨len, cs.dropWhile (fun x => is_symbol x || is_punctuation x || x == ch)⟩)
      else (TokenKind.SyntaxTok, ⟨len, cs⟩)) := by
    unfold dispatch
    rw [if_neg (by rintro ⟨rfl, -⟩; rcases hch with h | h | h <;> exact absurd h (by decide))]
    rw [if_neg (by rintro rfl; rcases hch with h | h | h <;> exact absurd h (by decide))]
    rw [if_neg (by rintro rfl; rcases hch with h | h | h <;> exact absurd h (by decide))]
    rw [if_neg (by rintro (rfl | rfl | rfl | rfl | rfl | rfl | rfl) <;>
          rcases hch with h | h | h <;> exact absurd h (by decide))]
    rw [if_pos hch]
    simp only [Cursor.peek_1, Cursor.take_while, dropWhileP_eq_dropWhile]
  rw [hd]
  by_cases h1 : cs.headD nulChar = ch
  · rw [if_pos h1, if_pos h1]
    rfl
  · rw [if_neg h1, if_neg h1]
    rfl

theorem claim5_witness :
    Cursor.take_token ⟨2, [':', ':']⟩ = some (⟨0, 2, TokenKind.Symbol⟩, ⟨2, []⟩) := by
  have h := claim5_repeated_reserved.1 2 ':' [':'] (Or.inl rfl)
  rw [h]
  decide

/-- C10: on input beginning with a single quote, `take_token` consumes the
opening quote and then unconditionally consumes the next scalar (if any)
as content before checking for a closing quote, so the empty character
literal is never valid: the second quote of `"''"` is eaten as content,
giving one `Unknown(UnfinishedCharacter)` span `[0,2)`, while `"'''"`
gives a single `Character` span `[0,3)`. -/
theorem claim10_character_literals :
    (∀ (len : Nat) (rest : List Char),
      Cursor.take_token ⟨len, quoteChar :: rest⟩ =
        some (match rest with
          | [] => (⟨len - utf8Len [quoteChar], len,
                    TokenKind.Unknown TokenError.UnfinishedCharacter⟩, ⟨len, []⟩)
          | _ :: rest2 =>
            if rest2.headD nulChar = quoteChar then
              (⟨len - utf8Len (quoteChar :: rest), len - utf8Len rest2.tail,
                TokenKind.Character⟩, ⟨len, rest2.tail⟩)
            else
              (⟨len - utf8Len (quoteChar :: rest), len - utf8Len rest2,
                TokenKind.Unknown TokenError.UnfinishedCharacter⟩, ⟨len, rest2⟩))) ∧
    lex (quoteChar :: [quoteChar]) =
      [⟨0, 2, TokenKind.Unknown TokenError.UnfinishedCharacter⟩] ∧
    lex (quoteChar :: quoteChar :: [quoteChar]) = [⟨0, 3, TokenKind.Character⟩] := by
  refine ⟨?_, by decide, by decide⟩
  intro len rest
  rw [take_token_cons rfl]
  have hd : dispatch quoteChar ⟨len, rest⟩ =
      (match rest with
        | [] => (TokenKind.Unknown TokenError.UnfinishedCharacter, ⟨len, []⟩)
        | _ :: rest2 =>
          if rest2.headD nulChar = quoteChar then (TokenKind.Character, ⟨len, rest2.tail⟩)
          else (TokenKind.Unknown TokenError.UnfinishedCharacter, ⟨len, rest2⟩)) := by
    unfold dispatch
    rw [if_neg (by rintro ⟨h, -⟩; exact absurd h (by decide))]
    rw [if_neg (by decide)]
    rw [if_pos rfl]
    cases rest with
    | nil => rfl
    | cons c2 rest2 =>
      cases rest2 with
      | nil => rfl
      | cons d2 ds2 => rfl
  rw [hd]
  cases rest with
  | nil => rfl
  | cons c2 rest2 =>
    dsimp only
    by_cases h1 : rest2.headD nulChar = quoteChar
    · rw [if_pos h1, if_pos h1]
      rfl
    · rw [if_neg h1, if_neg h1]
      rfl

/-- C9: the two tokenizer designs are not equivalent.  On `"007"` the
first-character-dispatch design (`lex`) yields a single `Integer` span
while the maximal-munch regex design (`Lexer`) yields the
`UnecessaryLeadingZeroes` error; and the arrow special-casing exists only
in the maximal-munch design: on `"->"` the `Lexer` produces the dedicated
`ArrowFunction` token (likewise `SymbolColon` on `"::"`), while `lex`
classifies both as a generic `Symbol` run. -/
theorem claim9_designs_diverge :
    lexerFirst "007".data = some (Except.error (LexError.UnecessaryLeadingZeroes 0)) ∧
    lex "007".data = [⟨0, 3, TokenKind.Integer⟩] ∧
    lexerFirst "->".data = some (Except.ok (0, LexToken.ArrowFunction, 2)) ∧
    lex "->".data = [⟨0, 2, TokenKind.Symbol⟩] ∧
    lexerFirst "::".data = some (Except.ok (0, LexToken.SymbolColon, 2)) ∧
    lex "::".data = [⟨0, 2, TokenKind.Symbol⟩] := by
  refine ⟨by rfl, by decide, by rfl, by decide, by rfl, by decide⟩
